import Mathlib

/-!
Shallow embedding of the Gridder beat-analysis core (Python package
`gridder_analysis`) and verification of its specification claims.

Python floats are modelled as exact rationals (`ℚ`), Python ints as `ℤ`
(or `ℕ` where the source value is a nonnegative index), byte strings as
`List ℕ`.  Every definition is translated directly from the source files
`__main__.py`, `tempo_segmenter.py` and `mp3_utils.py`.
-/

set_option maxRecDepth 100000

/-! ## Numeric primitives (Python / numpy semantics) -/

/-- Python `round(x)`: round half to even, exact over `ℚ`. -/
def pyRound (x : ℚ) : ℤ :=
  let f := x.floor
  let frac := x - (f : ℚ)
  if frac < 1/2 then f
  else if 1/2 < frac then f + 1
  else if f % 2 = 0 then f else f + 1

/-- Python `round(x, d)`: round to `d` decimal digits, half to even. -/
def roundTo (d : ℕ) (x : ℚ) : ℚ :=
  (pyRound (x * (10 : ℚ) ^ d) : ℚ) / (10 : ℚ) ^ d

/-- `np.sort` (ascending). -/
def npSort (l : List ℚ) : List ℚ :=
  l.insertionSort (· ≤ ·)

/-- `np.median`: middle element of the sorted list, or the mean of the
two middle elements for even length (0 for the empty list, where numpy
would return NaN). -/
def npMedian (l : List ℚ) : ℚ :=
  if (npSort l).length = 0 then 0
  else if (npSort l).length % 2 = 1 then (npSort l).getD ((npSort l).length / 2) 0
  else ((npSort l).getD ((npSort l).length / 2 - 1) 0 +
    (npSort l).getD ((npSort l).length / 2) 0) / 2

/-- `np.percentile(l, q)` with the default linear interpolation rule:
index `h = (n-1)·q/100`, interpolating between the two neighbouring
sorted elements. -/
def npPercentile (l : List ℚ) (q : ℚ) : ℚ :=
  let s := npSort l
  let n := s.length
  if n = 0 then 0
  else
    let h : ℚ := ((n : ℚ) - 1) * q / 100
    let i : ℕ := h.floor.toNat
    let frac : ℚ := h - (h.floor : ℚ)
    if i + 1 < n then s.getD i 0 + frac * (s.getD (i + 1) 0 - s.getD i 0)
    else s.getD (n - 1) 0

/-- `np.diff`: consecutive differences. -/
def npDiff (l : List ℚ) : List ℚ :=
  List.zipWith (fun a b => b - a) l l.tail

/-- Python `%` on floats with a positive divisor: `a - b*⌊a/b⌋`. -/
def qmod (a b : ℚ) : ℚ :=
  a - b * ((a / b).floor : ℚ)

/-! ## False-detection removal (`__main__.py`, step 2d, lines 183–214)

The source scans a mutable array with index `i` running from the second
beat to the second-to-last, deleting `beat_times[i]` (and re-examining
the same index) when one of the two removal rules fires.  Here the scan
is the structural recursion `removeAux m prev rest`, where `prev` is the
element at index `i-1` and `rest` the elements from index `i` on. -/

/-- Interval tolerance of the false-detection stage (`tolerance = 0.20`). -/
def removeTol : ℚ := 1/5

/-- The scan loop of step 2d; `m` is the median inter-beat interval of
the whole input sequence, computed once before the loop. -/
def removeAux (m : ℚ) : ℚ → List ℚ → List ℚ
  | _, [] => []
  | _, [b] => [b]
  | prev, b :: c :: rest =>
    let intervalBefore := b - prev
    let intervalAfter := c - b
    let combined := c - prev
    let beforeOk := |intervalBefore - m| / m ≤ removeTol
    let afterOk := |intervalAfter - m| / m ≤ removeTol
    let combinedOk := |combined - m| / m ≤ removeTol
    if ¬(beforeOk ∧ afterOk) ∧ combinedOk then
      removeAux m prev (c :: rest)
    else if (intervalBefore < m * (1 - removeTol) ∧ intervalAfter < m * (1 - removeTol))
        ∧ |combined - 2 * m| / m ≤ removeTol then
      removeAux m prev (c :: rest)
    else
      b :: removeAux m b (c :: rest)

/-- Step 2d of `__main__.py`: remove false beat detections.  Runs only
when the sequence has at least 4 beats; the median interval is computed
once from the input. -/
def remove_false_detections (beats : List ℚ) : List ℚ :=
  if 4 ≤ beats.length then
    match beats with
    | [] => []
    | b0 :: rest => b0 :: removeAux (npMedian (npDiff beats)) b0 rest
  else beats

/-! ## Weak-leading-beat trim (`__main__.py`, step 2b, lines 100–132)

The RMS energy probe `np.sqrt(np.mean(y[i-w:i+w]**2))` around a beat
position is kept abstract as a parameter `rmsAt : ℚ → ℚ` (the square
root is transcendental; the claims about this stage quantify over every
signal, hence over every probe function). -/

/-- The `first_strong` search of step 2b: index of the first beat whose
RMS meets the threshold, `0` when none does. -/
def firstStrongIdx (beatRms : List ℚ) (thr : ℚ) : ℕ :=
  match beatRms.findIdx? (fun r => decide (thr ≤ r)) with
  | some i => i
  | none => 0

/-- Step 2b of `__main__.py`: drop every beat before the first beat whose
energy reaches 20% of the median RMS of the louder half of all beats.
Runs only with ≥ 4 beats. -/
def trimWeakBeats (rmsAt : ℚ → ℚ) (beats : List ℚ) : List ℚ :=
  if 4 ≤ beats.length then
    let beatRms := beats.map rmsAt
    let sortedRms := npSort beatRms
    let upperHalf := sortedRms.drop (sortedRms.length / 2)
    let strongBeatRms := npMedian upperHalf
    let energyThreshold := strongBeatRms * (20/100)
    beats.drop (firstStrongIdx beatRms energyThreshold)
  else beats

/-! ## Leading-beat extrapolation (`__main__.py`, step 2c, lines 134–173) -/

/-- The `while True` loop of step 2c with explicit fuel.  Each successful
step prepends `head - m`; the loop breaks when the candidate position is
negative, past the end of the signal, or too quiet.  (`int(x)` truncates
toward zero; the candidate is nonnegative at that point, so `floor` is
the same.)  The fuel chosen by `extrapolateLeading` is large enough that
the fuel never runs out before a break when `0 < m`; for `m ≤ 0` the
Python loop would not terminate. -/
def extrapLoop (rmsAt : ℚ → ℚ) (sigLen : ℕ) (sr m thr : ℚ) :
    ℕ → List ℚ → List ℚ
  | 0, beats => beats
  | fuel + 1, beats =>
    match beats with
    | [] => []
    | b0 :: rest =>
      let extrapolated := b0 - m
      if extrapolated < 0 then b0 :: rest
      else if (sigLen : ℤ) ≤ (extrapolated * sr).floor then b0 :: rest
      else if rmsAt extrapolated < thr then b0 :: rest
      else extrapLoop rmsAt sigLen sr m thr fuel (extrapolated :: b0 :: rest)

/-- Step 2c of `__main__.py`: extrapolate missed leading beats backward
by the median of the first (up to 8) inter-beat gaps, while the region
keeps ≥ 25% of the first strong beat's energy.  Runs only with ≥ 2
beats. -/
def extrapolateLeading (rmsAt : ℚ → ℚ) (sigLen : ℕ) (sr : ℚ)
    (beats : List ℚ) : List ℚ :=
  if 2 ≤ beats.length then
    let nCheck := min 8 (beats.length - 1)
    let medianInterval := npMedian (npDiff (beats.take (nCheck + 1)))
    let extrapThreshold := rmsAt (beats.headD 0) * (25/100)
    let fuel := ((beats.headD 0) / medianInterval).ceil.toNat + 1
    extrapLoop rmsAt sigLen sr medianInterval extrapThreshold fuel beats
  else beats

/-- The cleaning stages of `__main__.py` in pipeline order: weak-leading
trim (2b), leading extrapolation (2c), false-detection removal (2d). -/
def clean_beats (rmsAt : ℚ → ℚ) (sigLen : ℕ) (sr : ℚ)
    (beats : List ℚ) : List ℚ :=
  remove_false_detections (extrapolateLeading rmsAt sigLen sr (trimWeakBeats rmsAt beats))

/-! ## Tempo segmentation (`tempo_segmenter.py`)

Indices and beat counts are Python ints, modelled as `ℤ`; list positions
are nonnegative in every reachable state, so indexing uses `Int.toNat`
with a default of `0` out of range. -/

/-- A tempo segment, the dict built by `_build_segments`. -/
structure Segment where
  start_beat_index : ℤ
  end_beat_index : ℤ
  start_position : ℚ
  bpm : ℚ
  beat_count : ℤ
deriving Repr, DecidableEq, Inhabited

/-- `beat_times[i]` for an `ℤ` index known to be nonnegative. -/
def btGet (bt : List ℚ) (i : ℤ) : ℚ := bt.getD i.toNat 0

/-- `_implicit_bpm`: `60 * beat_count / time_span`, 120 on degenerate
ranges. -/
def implicit_bpm (bt : List ℚ) (startIdx endIdx : ℤ) : ℚ :=
  if endIdx ≤ startIdx then 120
  else
    let span := btGet bt endIdx - btGet bt startIdx
    if span ≤ 0 then 120
    else 60 * ((endIdx - startIdx : ℤ) : ℚ) / span

/-- Max drift of the interior beats `k = 1 .. n-1` of the candidate span
`[start, ce]` against the Serato grid pinned at both endpoints (the
`np.max(np.abs(actual - expected))` of `_find_segment_end`). -/
def segMaxDrift (bt : List ℚ) (start ce : ℕ) : ℚ :=
  let n := ce - start
  let sp := bt.getD start 0
  let ep := bt.getD ce 0
  let interval := (ep - sp) / (n : ℚ)
  ((List.range (n - 1)).map (fun j =>
    |bt.getD (start + 1 + j) 0 - (sp + ((j + 1 : ℕ) : ℚ) * interval)|)).foldr max 0

/-- The candidate loop of `_find_segment_end`: try `ce = start+2, ...`,
stopping at the first candidate whose drift exceeds the tolerance; `best`
is the last accepted candidate.  Fuel-based recursion (the caller's fuel
covers the whole scan). -/
def findSegEndAux (bt : List ℚ) (start : ℕ) (tol : ℚ) : ℕ → ℕ → ℕ → ℕ
  | 0, _, best => best
  | fuel + 1, ce, best =>
    if ce < bt.length then
      if tol < segMaxDrift bt start ce then best
      else findSegEndAux bt start tol fuel (ce + 1) ce
    else best

/-- `_find_segment_end`. -/
def find_segment_end (bt : List ℚ) (start : ℕ) (tol : ℚ) : ℕ :=
  findSegEndAux bt start tol bt.length (start + 2) (start + 1)

/-- The `while seg_start < len(beat_times) - 1` loop of `_build_segments`.
Returns the accumulated segments and the final `seg_start`.  The fuel
given by `build_segments` never runs out, since `find_segment_end`
always returns at least `start + 1`. -/
def buildLoop (bt : List ℚ) (tolSec : ℚ) : ℕ → ℕ → List Segment → List Segment × ℕ
  | 0, segStart, acc => (acc, segStart)
  | fuel + 1, segStart, acc =>
    if (segStart : ℤ) < (bt.length : ℤ) - 1 then
      let segEnd := find_segment_end bt segStart tolSec
      buildLoop bt tolSec fuel segEnd (acc ++
        [{ start_beat_index := (segStart : ℤ), end_beat_index := (segEnd : ℤ),
           start_position := roundTo 6 (bt.getD segStart 0),
           bpm := roundTo 2 (implicit_bpm bt segStart segEnd),
           beat_count := (segEnd : ℤ) - (segStart : ℤ) }])
    else (acc, segStart)

/-- `_build_segments`, including the trailing standalone-beat case. -/
def build_segments (bt : List ℚ) (maxDriftMs : ℚ) : List Segment :=
  let tolSec := maxDriftMs / 1000
  let r := buildLoop bt tolSec bt.length 0 []
  let segs := r.1
  let segStart := r.2
  let lastBelow : Bool :=
    match segs.getLast? with
    | none => true
    | some s => decide (s.end_beat_index < (bt.length : ℤ) - 1)
  if (segStart : ℤ) = (bt.length : ℤ) - 1 ∧ lastBelow = true then
    let bpmLast : ℚ := match segs.getLast? with | some s => s.bpm | none => 120
    segs ++ [{ start_beat_index := (segStart : ℤ), end_beat_index := (segStart : ℤ),
               start_position := roundTo 6 (bt.getD segStart 0),
               bpm := roundTo 2 bpmLast, beat_count := 1 }]
  else segs

/-- `_serato_max_drift_good_only`: drift of the bridged span ignoring
beats inside the outlier range (skipped beats contribute 0, which equals
Python's skipping because all drifts are nonnegative). -/
def serato_max_drift_good_only (bt : List ℚ)
    (startIdx endIdx outlierStart outlierEnd : ℤ) : ℚ :=
  let n := endIdx - startIdx
  if n < 2 then 0
  else
    let sp := btGet bt startIdx
    let ep := btGet bt endIdx
    let interval := (ep - sp) / (n : ℚ)
    ((List.range (n.toNat - 1)).map (fun j =>
      let k : ℤ := (j : ℤ) + 1
      let bi := startIdx + k
      if outlierStart ≤ bi ∧ bi ≤ outlierEnd then 0
      else |btGet bt bi - (sp + (k : ℚ) * interval)|)).foldr max 0

/-- `while j < len(segments) and is_outlier[j]` of `_bridge_outliers`. -/
def findRunEnd (isOut : List Bool) : ℕ → ℕ → ℕ
  | 0, j => j
  | fuel + 1, j =>
    if j < isOut.length then
      if isOut.getD j false then findRunEnd isOut fuel (j + 1) else j
    else j

/-- The main loop of `_bridge_outliers`.  `racc` is the Python `result`
list in reverse order (its head is `result[-1]`, the segment the bridge
branch mutates). -/
def bridgeAux (segs : List Segment) (isOut : List Bool) (bt : List ℚ)
    (maxDriftSec : ℚ) : ℕ → ℕ → List Segment → List Segment
  | 0, _, racc => racc.reverse
  | fuel + 1, i, racc =>
    if i < segs.length then
      if isOut.getD i false then
        let j := findRunEnd isOut isOut.length i
        let fallback : List Segment → List Segment := fun racc =>
          if 1 < j - i then
            let firstOut := segs.getD i default
            let lastOut := segs.getD (j - 1) default
            let cs := firstOut.start_beat_index
            let ce := lastOut.end_beat_index
            { start_beat_index := cs, end_beat_index := ce,
              start_position := firstOut.start_position,
              bpm := roundTo 2 (implicit_bpm bt cs ce),
              beat_count := ce - cs } :: racc
          else segs.getD i default :: racc
        match racc.head?, segs[j]? with
        | some pg, some ng =>
          let bridgeStart := pg.start_beat_index
          let bridgeEnd := ng.start_beat_index
          let bridgeCount := bridgeEnd - bridgeStart
          if 2 ≤ bridgeCount then
            let drift := serato_max_drift_good_only bt bridgeStart bridgeEnd
              (segs.getD i default).start_beat_index
              (segs.getD (j - 1) default).end_beat_index
            if drift ≤ maxDriftSec * 2 then
              bridgeAux segs isOut bt maxDriftSec fuel j
                ({ pg with
                    end_beat_index := bridgeEnd
                    beat_count := bridgeCount
                    bpm := roundTo 2 (implicit_bpm bt bridgeStart bridgeEnd) } :: racc.tail)
            else bridgeAux segs isOut bt maxDriftSec fuel j (fallback racc)
          else bridgeAux segs isOut bt maxDriftSec fuel j (fallback racc)
        | _, _ => bridgeAux segs isOut bt maxDriftSec fuel j (fallback racc)
      else bridgeAux segs isOut bt maxDriftSec fuel (i + 1) (segs.getD i default :: racc)
    else racc.reverse

/-- `_bridge_outliers` (defaults `min_beats = 8`, `bpm_outlier_pct = 5`). -/
def bridge_outliers (segs : List Segment) (bt : List ℚ) (maxDriftMs : ℚ) :
    List Segment :=
  if segs.length ≤ 1 then segs
  else
    let totalBeats := (segs.map (·.beat_count)).sum
    if totalBeats = 0 then segs
    else
      let w := (segs.map (fun s => s.bpm * (s.beat_count : ℚ))).sum / (totalBeats : ℚ)
      let isOut := segs.map (fun s =>
        decide (s.beat_count < 8 ∧ 5 < |s.bpm - w| / w * 100))
      bridgeAux segs isOut bt (maxDriftMs / 1000) (segs.length + 1) 0 []

/-- Whether beat index `bi` lies inside an outlier segment's inclusive
index range (`outlier_beats` of `_consolidate_constant_tempo`). -/
def inOutlierSeg (segs : List Segment) (w : ℚ) (bi : ℤ) : Bool :=
  segs.any (fun s =>
    decide (3/2 < |s.bpm - w| / w * 100) &&
      decide (s.start_beat_index ≤ bi) && decide (bi ≤ s.end_beat_index))

/-- Max drift of the non-outlier beats against the single consolidated
grid (`_consolidate_constant_tempo`, drift loop). -/
def consolidDrift (segs : List Segment) (bt : List ℚ) (w : ℚ)
    (startIdx endIdx : ℤ) : ℚ :=
  let n := endIdx - startIdx
  let sp := btGet bt startIdx
  let ep := btGet bt endIdx
  let interval := (ep - sp) / (n : ℚ)
  ((List.range (n.toNat - 1)).map (fun j =>
    let k : ℤ := (j : ℤ) + 1
    let bi := startIdx + k
    if inOutlierSeg segs w bi then 0
    else |btGet bt bi - (sp + (k : ℚ) * interval)|)).foldr max 0

/-- `_consolidate_constant_tempo` (default `bpm_range_pct = 1.5`). -/
def consolidate_constant_tempo (segs : List Segment) (bt : List ℚ) :
    List Segment :=
  if segs.length ≤ 1 then segs
  else
    let totalBeats := (segs.map (·.beat_count)).sum
    if totalBeats = 0 then segs
    else
      let w := (segs.map (fun s => s.bpm * (s.beat_count : ℚ))).sum / (totalBeats : ℚ)
      let normalBeats := ((segs.filter (fun s =>
        decide (|s.bpm - w| / w * 100 ≤ 3/2))).map (·.beat_count)).sum
      if (normalBeats : ℚ) / (totalBeats : ℚ) < 85/100 then segs
      else
        match segs.head?, segs.getLast? with
        | some first, some last =>
          let startIdx := first.start_beat_index
          let endIdx := last.end_beat_index
          let totalCount := endIdx - startIdx
          let totalSpan := btGet bt endIdx - btGet bt startIdx
          if totalSpan ≤ 0 ∨ totalCount ≤ 0 then segs
          else if 40 < consolidDrift segs bt w startIdx endIdx * 1000 then segs
          else
            [{ start_beat_index := startIdx, end_beat_index := endIdx,
               start_position := first.start_position,
               bpm := roundTo 2 (60 * (totalCount : ℚ) / totalSpan),
               beat_count := totalCount }]
        | _, _ => segs

/-- `segment_tempo` (default drift tolerance 20 ms): trivial cases for
fewer than 2 beats, otherwise build → bridge → consolidate. -/
def segment_tempo (bt : List ℚ) (maxDriftMs : ℚ) : List Segment :=
  if bt.length < 2 then
    if bt.length = 1 then
      [{ start_beat_index := 0, end_beat_index := 0,
         start_position := bt.getD 0 0, bpm := 120, beat_count := 1 }]
    else []
  else
    consolidate_constant_tempo
      (bridge_outliers (build_segments bt maxDriftMs) bt maxDriftMs) bt

/-- Concrete 35-beat sequence alternating inter-beat intervals `1/2` and
`109/200`: every two adjacent intervals differ enough that no pinned
grid covers them within 20 ms, so segmentation yields 34 one-interval
segments. -/
def c2Beats : List ℚ :=
  (List.range 35).map (fun i =>
    (((i + 1) / 2 : ℕ) : ℚ) * (1/2) + ((i / 2 : ℕ) : ℚ) * (109/200))

/-! ## Segment count/index invariant (for C3) -/

/-- Every segment the segmenter ever emits satisfies
`beat_count = end - start`, except the single-beat placeholder segments
which carry `beat_count = 1` with `end = start`. -/
def segOk (s : Segment) : Prop :=
  s.beat_count = s.end_beat_index - s.start_beat_index ∨
    (s.beat_count = 1 ∧ s.end_beat_index = s.start_beat_index)

/-! ## Grid snapping (`__main__.py`, step 2e, lines 233–334) -/

/-- The IQR-to-median spread of the inter-beat intervals
(`iqr_ratio`, with the `else 1.0` guard for a nonpositive median). -/
def iqrSpread (beats : List ℚ) : ℚ :=
  let intervals := npDiff beats
  let medianInterval := npMedian intervals
  if 0 < medianInterval then
    (npPercentile intervals 75 - npPercentile intervals 25) / medianInterval
  else 1

/-- How many beats sit within 30 ms (modular distance) of a multiple of
the trial interval from the first beat (`n_good` of the candidate
search). -/
def trialGoodCount (beats : List ℚ) (firstBeat trial : ℚ) : ℕ :=
  (beats.filter (fun b =>
    let off := qmod (b - firstBeat) trial
    decide (min off (trial - off) < 3/100))).length

/-- The `for delta in range(-5, 6)` candidate search: keep the trial
interval with the (first) strictly largest good count. -/
def bestEstimate (beats : List ℚ) (totalSpan : ℚ) (baseCount : ℤ)
    (medianInterval firstBeat : ℚ) : ℚ :=
  let init : ℚ := if 0 < baseCount then totalSpan / (baseCount : ℚ) else medianInterval
  ((List.range 11).foldl (fun st d =>
    let c := baseCount + ((d : ℤ) - 5)
    if c ≤ 0 then st
    else
      let trial := totalSpan / (c : ℚ)
      let nGood := trialGoodCount beats firstBeat trial
      if st.2 < nGood then (trial, nGood) else st) (init, 0)).1

/-- The cumulative beat-numbering scan (`beat_numbers`):
`numbers[i] = numbers[i-1] + max(1, round(gap / est))`. -/
def beatNumbersAux (est : ℚ) : ℚ → ℤ → List ℚ → List ℤ
  | _, _, [] => []
  | prevB, prevN, b :: rest =>
    let n := prevN + max 1 (pyRound ((b - prevB) / est))
    n :: beatNumbersAux est b n rest

/-- `beat_numbers` with `numbers[0] = 0`. -/
def beatNumbers (beats : List ℚ) (est : ℚ) : List ℤ :=
  match beats with
  | [] => []
  | b0 :: rest => 0 :: beatNumbersAux est b0 0 rest

/-- `np.unique(·, return_index=True)`: the index of the first occurrence
of each distinct value, ordered by increasing value. -/
def npUniqueIdx (l : List ℤ) : List ℕ :=
  (l.dedup.insertionSort (· ≤ ·)).map (fun v => l.indexOf v)

/-- Degree-1 least squares (`np.polyfit(xs, ys, 1)`), closed form.  The
singular case (`den = 0`, impossible here since the x values are
distinct) returns slope 0. -/
def polyfit1 (xs ys : List ℚ) : ℚ × ℚ :=
  let n : ℚ := xs.length
  let sx := xs.sum
  let sy := ys.sum
  let sxx := (xs.map (fun x => x * x)).sum
  let sxy := (List.zipWith (· * ·) xs ys).sum
  let den := n * sxx - sx * sx
  let slope := if den = 0 then 0 else (n * sxy - sx * sy) / den
  (slope, (sy - slope * sx) / n)

/-- The inlier mask: residual to `intercept + n·slope` below 30 ms. -/
def snapMask (slope intercept : ℚ) (cb : List ℚ) (cn : List ℤ) : List Bool :=
  List.zipWith (fun b n => decide (|b - (intercept + (n : ℚ) * slope)| < 3/100)) cb cn

/-- Select the elements of `l` whose mask entry is true
(`array[good_mask]` / `np.where(good_mask)[0]` indexing). -/
def maskFilter {α : Type} (l : List α) (mask : List Bool) : List α :=
  (List.zipWith (fun a m => (a, m)) l mask).filterMap
    (fun p => if p.2 then some p.1 else none)

/-- The iterative regression loop (`for iteration in range(5)`), carrying
`(slope, intercept, good_mask)`; breaks when fewer than 4 inliers
remain, the refit slope is nonpositive (keeping that slope, as the
source does), or the mask converges. -/
def snapIter (cb : List ℚ) (cn : List ℤ) :
    ℕ → ℚ → ℚ → List Bool → ℚ × ℚ × List Bool
  | 0, slope, intercept, mask => (slope, intercept, mask)
  | fuel + 1, slope, intercept, mask =>
    if (maskFilter cn mask).length < 4 then (slope, intercept, mask)
    else
      let p := polyfit1 ((maskFilter cn mask).map (fun n => (n : ℚ))) (maskFilter cb mask)
      if p.1 ≤ 0 then (p.1, p.2, mask)
      else
        let mask2 := snapMask p.1 p.2 cb cn
        if mask2 = mask then (p.1, p.2, mask)
        else snapIter cb cn fuel p.1 p.2 mask2

/-- The chosen trial interval (`est_interval`). -/
def snapEst (beats : List ℚ) : ℚ :=
  let medianInterval := npMedian (npDiff beats)
  let totalSpan := beats.getLastD 0 - beats.headD 0
  bestEstimate beats totalSpan (pyRound (totalSpan / medianInterval))
    medianInterval (beats.headD 0)

/-- `clean_beats`: the beats at the `np.unique` first-occurrence indices
of the cumulative numbering. -/
def snapCleanBeats (beats : List ℚ) : List ℚ :=
  (npUniqueIdx (beatNumbers beats (snapEst beats))).map (fun i => beats.getD i 0)

/-- `clean_numbers`: the numbers at those same indices. -/
def snapCleanNumbers (beats : List ℚ) : List ℤ :=
  (npUniqueIdx (beatNumbers beats (snapEst beats))).map
    (fun i => (beatNumbers beats (snapEst beats)).getD i 0)

/-- Seed state: slope = est interval, intercept = median residual, mask
from the seeded grid. -/
def snapInit (beats : List ℚ) : ℚ × ℚ × List Bool :=
  let slope := snapEst beats
  let intercept := npMedian (List.zipWith (fun b n => b - (n : ℚ) * slope)
    (snapCleanBeats beats) (snapCleanNumbers beats))
  (slope, intercept, snapMask slope intercept (snapCleanBeats beats) (snapCleanNumbers beats))

/-- Final `(slope, intercept, good_mask)` after the (at most 5)
regression iterations. -/
def snapFinal (beats : List ℚ) : ℚ × ℚ × List Bool :=
  snapIter (snapCleanBeats beats) (snapCleanNumbers beats) 5
    (snapInit beats).1 (snapInit beats).2.1 (snapInit beats).2.2

/-- The acceptance test: `n_good >= len(clean_beats) * 0.80 and slope > 0`. -/
def snapAcceptedB (beats : List ℚ) : Bool :=
  decide ((snapCleanBeats beats).length * (80/100 : ℚ) ≤
      ((snapFinal beats).2.2.count true : ℚ)) &&
    decide (0 < (snapFinal beats).1)

/-- The regenerated perfect grid: `intercept + n*slope` for `n` from the
first to the last inlier beat number, keeping only nonnegative
positions. -/
def snapGrid (beats : List ℚ) : List ℚ :=
  let slope := (snapFinal beats).1
  let intercept := (snapFinal beats).2.1
  let goodNums := maskFilter (snapCleanNumbers beats) (snapFinal beats).2.2
  let firstNum := goodNums.headD 0
  let lastNum := goodNums.getLastD 0
  ((List.range (lastNum - firstNum + 1).toNat).map
    (fun j => intercept + ((firstNum + (j : ℤ) : ℤ) : ℚ) * slope)).filter
    (fun g => decide (0 ≤ g))

/-- Step 2e of `__main__.py`: snap beats to a regular grid when the
tempo is near constant (≥ 8 beats, IQR spread < 3%), leaving the
sequence untouched when the regression result is not accepted. -/
def grid_snap (beats : List ℚ) : List ℚ :=
  if 8 ≤ beats.length then
    if iqrSpread beats < 3/100 then
      if snapAcceptedB beats then snapGrid beats else beats
    else beats
  else beats

/-- Concrete 21-beat sequence: integer positions with five beats (every
fourth, starting at index 3) displaced forward by 0.04 s.  The interval
spread stays below 3% of the median, so the snapping stage is active,
but only 16 of 21 beats are inliers (< 80%), so the fit is rejected. -/
def c8Rejected : List ℚ :=
  (List.range 21).map (fun (i : ℕ) => (i : ℚ) + if i % 4 = 3 then 4/100 else 0)

/-! ## Serato offset calibration (`__main__.py`, step 2f, lines 346–416) -/

/-- First index of the minimum of `|s - b|` over the Serato beats
(`np.argmin`), returning that Serato beat. -/
def argminAbs (serato : List ℚ) (b : ℚ) : Option ℚ :=
  serato.foldl (fun best s =>
    match best with
    | none => some s
    | some t => if |s - b| < |t - b| then some s else best) none

/-- Method 1 of step 2f: for each of the first 100 pre-snap beats, the
delta to the nearest Serato beat when that is within 100 ms. -/
def collectDirectOffsets (preSnap serato : List ℚ) : List ℚ :=
  (preSnap.take 100).filterMap (fun b =>
    match argminAbs serato b with
    | some s => if |s - b| < 100/1000 then some (s - b) else none
    | none => none)

/-- The calibration acceptance decision of step 2f (lines 390–403):
require at least 10 collected deltas, take their median, and accept only
a median inside `[-0.010, 0.060]` seconds. -/
def calibrationDecision (offs : List ℚ) : Option ℚ :=
  if 10 ≤ offs.length then
    let c := npMedian offs
    if -(10/1000) ≤ c ∧ c ≤ 60/1000 then some c else none
  else none

/-- Lines 412–444: apply the calibrated offset when accepted, otherwise
the computed codec-delay-plus-onset-to-peak offset; either way the
offset is added to every beat. -/
def applyCalibration (beats offs : List ℚ) (computedOffset : ℚ) : List ℚ :=
  match calibrationDecision offs with
  | some c => beats.map (fun b => b + c)
  | none => beats.map (fun b => b + computedOffset)

/-! ## MP3 encoder delay (`mp3_utils.py`, `get_mp3_encoder_delay`)

File bytes are `List ℕ`; a failed `open`/`read` is the `none` case of
the optional file argument.  All indexing in the source is guarded by
explicit length checks, so `getD · 0` agrees with Python indexing. -/

/-- 4-byte big-endian word (`struct.unpack` / explicit shift-or). -/
def be32 (a b c d : ℕ) : ℕ := (a <<< 24) ||| (b <<< 16) ||| (c <<< 8) ||| d

/-- Skip a leading ID3v2 tag: read its synchsafe size, and re-read 4096
bytes from the file past the tag when it extends beyond the initial
buffer.  (The source's `len(data) < 10` guard is subsumed by the caller's
`len(data) < 128` check.)  Returns the working buffer and scan offset. -/
def id3Skip (file data0 : List ℕ) : List ℕ × ℕ :=
  if data0.take 3 = [0x49, 0x44, 0x33] then
    let size := (((data0.getD 6 0) &&& 0x7F) <<< 21) |||
                (((data0.getD 7 0) &&& 0x7F) <<< 14) |||
                (((data0.getD 8 0) &&& 0x7F) <<< 7) |||
                ((data0.getD 9 0) &&& 0x7F)
    let off := 10 + size
    if data0.length < off + 4096 then ((file.drop off).take 4096, 0)
    else (data0, off)
  else (data0, 0)

/-- The frame-sync scan: first offset below `maxSearch` whose byte pair
is an MPEG sync with non-reserved version and layer; `none` when the
loop runs out (the `while`/`else` branch). -/
def findSyncAux (data : List ℕ) (maxSearch : ℕ) : ℕ → ℕ → Option ℕ
  | 0, _ => none
  | fuel + 1, off =>
    if off < maxSearch then
      if data.getD off 0 = 0xFF ∧ (data.getD (off + 1) 0) &&& 0xE0 = 0xE0 ∧
          (data.getD (off + 1) 0 >>> 3) &&& 3 ≠ 1 ∧
          (data.getD (off + 1) 0 >>> 1) &&& 3 ≠ 0 then some off
      else findSyncAux data maxSearch fuel (off + 1)
    else none

/-- The tail of the parse from the encoder-version string position on:
check the version string is printable ASCII, read the 12-bit delay
21 bytes past the string start, and validate its range. -/
def parseLame (data : List ℕ) (pos : ℕ) : ℕ :=
  if data.length < pos + 21 + 3 then 576
  else if ¬ ((data.drop pos).take 9).all (fun b => b == 0 || (32 ≤ b && b < 127)) then 576
  else
    let d := ((data.getD (pos + 21) 0) <<< 4) ||| ((data.getD (pos + 21 + 1) 0) >>> 4)
    if 0 < d ∧ d < 5000 then d else 576

/-- From the Xing/Info tag offset on: verify the tag, walk the optional
field flags, and hand over to the LAME-version parse. -/
def parseXing (data : List ℕ) (xo : ℕ) : ℕ :=
  if data.length < xo + 8 then 576
  else if (data.drop xo).take 4 ≠ [0x58, 0x69, 0x6E, 0x67] ∧
      (data.drop xo).take 4 ≠ [0x49, 0x6E, 0x66, 0x6F] then 576
  else
    let flags := be32 (data.getD (xo + 4) 0) (data.getD (xo + 5) 0)
      (data.getD (xo + 6) 0) (data.getD (xo + 7) 0)
    let pos1 := if flags &&& 1 ≠ 0 then xo + 8 + 4 else xo + 8
    let pos2 := if flags &&& 2 ≠ 0 then pos1 + 4 else pos1
    let pos3 := if flags &&& 4 ≠ 0 then pos2 + 100 else pos2
    parseLame data (if flags &&& 8 ≠ 0 then pos3 + 4 else pos3)

/-- From a found frame-sync offset on: read the 4-byte frame header,
derive the side-information size from MPEG version and channel mode, and
hand over to the Xing-tag parse. -/
def parseFrame (data : List ℕ) (frameStart : ℕ) : ℕ :=
  if data.length < frameStart + 4 then 576
  else
    let header := be32 (data.getD frameStart 0) (data.getD (frameStart + 1) 0)
      (data.getD (frameStart + 2) 0) (data.getD (frameStart + 3) 0)
    let mpegVersion := (header >>> 19) &&& 3
    let channelMode := (header >>> 6) &&& 3
    let sideInfoSize := if mpegVersion = 3 then (if channelMode ≠ 3 then 32 else 17)
      else (if channelMode ≠ 3 then 17 else 9)
    parseXing data (frameStart + 4 + sideInfoSize)

/-- `get_mp3_encoder_delay` after the extension check and file read:
parse the LAME/Xing header out of the byte buffer, returning the encoded
delay when it is in `(0, 5000)` and the fixed default 576 on any
failure. -/
def parseMp3Delay (file : List ℕ) : ℕ :=
  let data0 := file.take 16384
  if data0.length < 128 then 576
  else
    let data := (id3Skip file data0).1
    let offset := (id3Skip file data0).2
    let maxSearch := min (data.length - 4) (offset + 8192)
    match findSyncAux data maxSearch (maxSearch + 1) offset with
    | none => 576
    | some frameStart => parseFrame data frameStart

/-- `get_mp3_encoder_delay`: 0 for any path not ending in `.mp3`
(case-insensitive), 576 when the file cannot be read, otherwise the
header parse. -/
def get_mp3_encoder_delay (filepath : String) (file : Option (List ℕ)) : ℕ :=
  if ¬ (filepath.toLower.endsWith ".mp3") then 0
  else
    match file with
    | none => 576
    | some f => parseMp3Delay f

/-- A 128-byte MP3 frame whose LAME/Xing header encodes delay 1234:
sync `FF FB 90 00` (MPEG1, stereo ⇒ 32 side-info bytes), Xing tag with
no optional fields, version string `LAME3.100`, delay bytes at +21. -/
def xingDelayBytes : List ℕ :=
  [0xFF, 0xFB, 0x90, 0x00] ++ List.replicate 32 0 ++
  [0x58, 0x69, 0x6E, 0x67] ++ [0, 0, 0, 0] ++
  [0x4C, 0x41, 0x4D, 0x45, 0x33, 0x2E, 0x31, 0x30, 0x30] ++
  List.replicate 12 0 ++ [0x4D, 0x20, 0x00] ++ List.replicate 60 0

/-- The same frame with no Xing/Info tag after the side information. -/
def noXingBytes : List ℕ := [0xFF, 0xFB, 0x90, 0x00] ++ List.replicate 124 0

/-- `xingDelayBytes` with a non-printable version string. -/
def xingBadVersionBytes : List ℕ := xingDelayBytes.set 44 1

/-- `xingDelayBytes` with the delay field zeroed (out of range). -/
def xingZeroDelayBytes : List ℕ := (xingDelayBytes.set 65 0).set 66 0

/-! ## Serato grid reconstruction (`mp3_utils.py`, `reconstruct_serato_beats`)

A decoded marker dict has a position and either `beats_until_next`
(non-terminal) or `bpm` (terminal); `dict.get(key, 0)` is modelled by
the two accessor functions. -/

/-- The payload of a decoded Serato marker. -/
inductive MarkerKind where
  | toNext (beatsUntilNext : ℤ)
  | tempo (bpm : ℚ)
deriving Repr, DecidableEq

/-- A decoded Serato beat-grid marker. -/
structure Marker where
  position : ℚ
  kind : MarkerKind
deriving Repr, DecidableEq

/-- `marker.get('beats_until_next', 0)`. -/
def markerBUN (m : Marker) : ℤ :=
  match m.kind with
  | .toNext n => n
  | .tempo _ => 0

/-- `marker.get('bpm', 0)`. -/
def markerBpm (m : Marker) : ℚ :=
  match m.kind with
  | .toNext _ => 0
  | .tempo b => b

/-- The interior-beat loop `for k in range(1, n_beats)`: append
`pos + k*interval`, returning early (`Bool` = true) when the beat-count
cap is reached right after an append. -/
def interiorBeats (maxBeats : ℕ) (pos interval : ℚ) (n : ℤ) :
    ℕ → ℤ → List ℚ → List ℚ × Bool
  | 0, _, beats => (beats, false)
  | fuel + 1, k, beats =>
    if k < n then
      let beats2 := beats ++ [pos + (k : ℚ) * interval]
      if maxBeats ≤ beats2.length then (beats2, true)
      else interiorBeats maxBeats pos interval n fuel (k + 1) beats2
    else (beats, false)

/-- The terminal-marker loop `while t < max_time and len(beats) < max_beats`. -/
def terminalBeats (maxBeats : ℕ) (maxTime interval : ℚ) :
    ℕ → ℚ → List ℚ → List ℚ
  | 0, _, beats => beats
  | fuel + 1, t, beats =>
    if t < maxTime ∧ beats.length < maxBeats then
      terminalBeats maxBeats maxTime interval fuel (t + interval) (beats ++ [t])
    else beats

/-- The `for i, marker in enumerate(markers)` body: every marker appends
its own position; a non-terminal marker with positive `beats_until_next`
interpolates to the next marker (an early return inside that loop ends
the whole reconstruction); the terminal marker extrapolates at `60/bpm`
when its bpm is positive, bounded by the (truthy) duration or
`pos + interval * max_beats`. -/
def reconAux (maxBeats : ℕ) (duration : Option ℚ) : List Marker → List ℚ → List ℚ
  | [], beats => beats
  | [m], beats =>
    let pos := m.position
    let beats2 := beats ++ [pos]
    let bpm := markerBpm m
    if 0 < bpm then
      let interval := 60 / bpm
      let maxTime := match duration with
        | some d => if d = 0 then pos + interval * (maxBeats : ℚ) else d
        | none => pos + interval * (maxBeats : ℚ)
      terminalBeats maxBeats maxTime interval (maxBeats + 1) (pos + interval) beats2
    else beats2
  | m :: m2 :: rest, beats =>
    let pos := m.position
    let beats2 := beats ++ [pos]
    let nBeats := markerBUN m
    if 0 < nBeats then
      let interval := (m2.position - pos) / (nBeats : ℚ)
      let r := interiorBeats maxBeats pos interval nBeats (nBeats.toNat + 1) 1 beats2
      if r.2 then r.1
      else reconAux maxBeats duration (m2 :: rest) r.1
    else reconAux maxBeats duration (m2 :: rest) beats2

/-- `reconstruct_serato_beats(markers, max_beats, duration)`. -/
def reconstruct_serato_beats (markers : List Marker) (maxBeats : ℕ)
    (duration : Option ℚ) : List ℚ :=
  if markers.isEmpty then [] else reconAux maxBeats duration markers []

/-! ## Helper lemmas about the cleaning stages -/

theorem removeAux_sublist (m : ℚ) :
    ∀ (prev : ℚ) (l : List ℚ), List.Sublist (removeAux m prev l) l := by
  intro prev l
  induction l generalizing prev with
  | nil => simp [removeAux]
  | cons b t ih =>
    cases t with
    | nil => simp [removeAux]
    | cons c rest =>
      simp only [removeAux]
      split
      · exact (ih prev).cons b
      · split
        · exact (ih prev).cons b
        · exact (ih b).cons₂ b

theorem remove_false_detections_sublist (beats : List ℚ) :
    List.Sublist (remove_false_detections beats) beats := by
  unfold remove_false_detections
  split
  · cases beats with
    | nil => simp
    | cons b0 rest => exact (removeAux_sublist _ b0 rest).cons₂ b0
  · exact List.Sublist.refl beats

theorem trimWeakBeats_sublist (rmsAt : ℚ → ℚ) (beats : List ℚ) :
    List.Sublist (trimWeakBeats rmsAt beats) beats := by
  unfold trimWeakBeats
  split
  · exact List.drop_sublist _ beats
  · exact List.Sublist.refl beats

theorem mem_npSort {x : ℚ} {l : List ℚ} (h : x ∈ npSort l) : x ∈ l :=
  (List.perm_insertionSort (· ≤ ·) l).mem_iff.mp h

theorem npMedian_pos (l : List ℚ) (hne : l ≠ []) (hpos : ∀ x ∈ l, 0 < x) :
    0 < npMedian l := by
  unfold npMedian
  have hlen : (npSort l).length = l.length := by simp [npSort]
  have hn : (npSort l).length ≠ 0 := by
    rw [hlen]
    have := List.length_pos.mpr hne
    omega
  have hget : ∀ i : ℕ, i < (npSort l).length → 0 < (npSort l).getD i 0 := by
    intro i hi
    rw [List.getD_eq_getElem _ _ hi]
    exact hpos _ (mem_npSort (List.getElem_mem hi))
  split
  · omega
  · split
    · exact hget _ (Nat.div_lt_self (Nat.pos_of_ne_zero hn) (by omega))
    · have h1 : 0 < (npSort l).getD ((npSort l).length / 2 - 1) 0 := by
        refine hget _ ?_
        have := Nat.div_lt_self (Nat.pos_of_ne_zero hn) (show 1 < 2 by omega)
        omega
      have h2 : 0 < (npSort l).getD ((npSort l).length / 2) 0 :=
        hget _ (Nat.div_lt_self (Nat.pos_of_ne_zero hn) (by omega))
      positivity

theorem npDiff_pos : ∀ (l : List ℚ), l.Pairwise (· < ·) →
    ∀ x ∈ npDiff l, 0 < x := by
  intro l
  induction l with
  | nil => intro _ x hx; simp [npDiff] at hx
  | cons a t ih =>
    intro hp x hx
    cases t with
    | nil => simp [npDiff] at hx
    | cons b rest =>
      have hab : a < b := (List.pairwise_cons.mp hp).1 b (by simp)
      have hx' : x ∈ (b - a) :: npDiff (b :: rest) := by
        simpa [npDiff] using hx
      rcases List.mem_cons.mp hx' with h | h
      · simpa [h] using sub_pos.mpr hab
      · exact ih (List.pairwise_cons.mp hp).2 x h

theorem npDiff_length (l : List ℚ) : (npDiff l).length = l.length - 1 := by
  cases l with
  | nil => simp [npDiff]
  | cons a t =>
    simp only [npDiff, List.tail_cons, List.length_zipWith, List.length_cons]
    omega

theorem extrapLoop_pairwise (rmsAt : ℚ → ℚ) (sigLen : ℕ) (sr m thr : ℚ)
    (hm : 0 < m) :
    ∀ (fuel : ℕ) (l : List ℚ), l.Pairwise (· < ·) →
      (extrapLoop rmsAt sigLen sr m thr fuel l).Pairwise (· < ·) := by
  intro fuel
  induction fuel with
  | zero => intro l hl; simpa [extrapLoop] using hl
  | succ k ih =>
    intro l hl
    cases l with
    | nil => simp [extrapLoop]
    | cons b0 rest =>
      simp only [extrapLoop]
      split
      · exact hl
      · split
        · exact hl
        · split
          · exact hl
          · refine ih _ (List.pairwise_cons.mpr ⟨?_, hl⟩)
            intro x hx
            rcases List.mem_cons.mp hx with h | h
            · simpa [h] using sub_lt_self b0 hm
            · exact lt_trans (sub_lt_self b0 hm) ((List.pairwise_cons.mp hl).1 x h)

theorem extrapolateLeading_pairwise (rmsAt : ℚ → ℚ) (sigLen : ℕ) (sr : ℚ)
    (beats : List ℚ) (hp : beats.Pairwise (· < ·)) :
    (extrapolateLeading rmsAt sigLen sr beats).Pairwise (· < ·) := by
  unfold extrapolateLeading
  split
  · rename_i hlen
    refine extrapLoop_pairwise _ _ _ _ _ ?_ _ _ hp
    refine npMedian_pos _ ?_ ?_
    · have h1 : (npDiff (List.take (min 8 (beats.length - 1) + 1) beats)).length =
          (List.take (min 8 (beats.length - 1) + 1) beats).length - 1 := npDiff_length _
      have h2 : (List.take (min 8 (beats.length - 1) + 1) beats).length =
          min (min 8 (beats.length - 1) + 1) beats.length := List.length_take _ _
      intro hcon
      rw [hcon] at h1
      simp only [List.length_nil] at h1
      omega
    · exact npDiff_pos _ (hp.sublist (List.take_sublist _ _))
  · exact hp

theorem buildLoop_segOk (bt : List ℚ) (tolSec : ℚ) :
    ∀ (fuel segStart : ℕ) (acc : List Segment),
      (∀ s ∈ acc, segOk s) →
      ∀ s ∈ (buildLoop bt tolSec fuel segStart acc).1, segOk s := by
  intro fuel
  induction fuel with
  | zero => intro segStart acc hacc; simpa [buildLoop] using hacc
  | succ k ih =>
    intro segStart acc hacc
    simp only [buildLoop]
    split
    · refine ih _ _ ?_
      intro s hs
      rcases List.mem_append.mp hs with h | h
      · exact hacc s h
      · rcases List.mem_singleton.mp h with rfl
        left; rfl
    · simpa using hacc

theorem build_segments_segOk (bt : List ℚ) (maxDriftMs : ℚ) :
    ∀ s ∈ build_segments bt maxDriftMs, segOk s := by
  intro s hs
  simp only [build_segments] at hs
  have hbase := buildLoop_segOk bt (maxDriftMs / 1000) bt.length 0 []
    (by intro s hs; simp at hs)
  split at hs
  · rcases List.mem_append.mp hs with h | h
    · exact hbase s h
    · rcases List.mem_singleton.mp h with rfl
      right; exact ⟨rfl, rfl⟩
  · exact hbase s hs

theorem bridgeAux_segOk (segs : List Segment) (isOut : List Bool)
    (bt : List ℚ) (maxDriftSec : ℚ) (hsegs : ∀ s ∈ segs, segOk s) :
    ∀ (fuel i : ℕ) (racc : List Segment), (∀ s ∈ racc, segOk s) →
      ∀ s ∈ bridgeAux segs isOut bt maxDriftSec fuel i racc, segOk s := by
  intro fuel
  induction fuel with
  | zero =>
    intro i racc hracc
    simp only [bridgeAux]
    intro s hs
    exact hracc s (List.mem_reverse.mp hs)
  | succ k ih =>
    intro i racc hracc
    simp only [bridgeAux]
    have hfall : ∀ (hi : i < segs.length) (racc' : List Segment),
        (∀ s ∈ racc', segOk s) →
        ∀ s ∈ (if 1 < findRunEnd isOut isOut.length i - i then
            { start_beat_index := (segs.getD i default).start_beat_index,
              end_beat_index := (segs.getD (findRunEnd isOut isOut.length i - 1) default).end_beat_index,
              start_position := (segs.getD i default).start_position,
              bpm := roundTo 2 (implicit_bpm bt (segs.getD i default).start_beat_index
                (segs.getD (findRunEnd isOut isOut.length i - 1) default).end_beat_index),
              beat_count := (segs.getD (findRunEnd isOut isOut.length i - 1) default).end_beat_index -
                (segs.getD i default).start_beat_index } :: racc'
          else segs.getD i default :: racc'), segOk s := by
      intro hi racc' hracc' s hs
      split at hs
      · rcases List.mem_cons.mp hs with rfl | h
        · left; rfl
        · exact hracc' s h
      · rcases List.mem_cons.mp hs with rfl | h
        · rw [List.getD_eq_getElem _ _ hi]
          exact hsegs _ (List.getElem_mem hi)
        · exact hracc' s h
    split
    · rename_i hi
      split
      · split
        · rename_i pg ng hpg hng
          split
          · split
            · refine ih _ _ ?_
              intro s hs
              rcases List.mem_cons.mp hs with rfl | h
              · left; rfl
              · exact hracc s (List.mem_of_mem_tail h)
            · exact ih _ _ (hfall hi racc hracc)
          · exact ih _ _ (hfall hi racc hracc)
        · exact ih _ _ (hfall hi racc hracc)
      · refine ih _ _ ?_
        intro s hs
        rcases List.mem_cons.mp hs with rfl | h
        · rw [List.getD_eq_getElem _ _ hi]
          exact hsegs _ (List.getElem_mem hi)
        · exact hracc s h
    · intro s hs
      exact hracc s (List.mem_reverse.mp hs)

theorem bridge_outliers_segOk (segs : List Segment) (bt : List ℚ)
    (maxDriftMs : ℚ) (hsegs : ∀ s ∈ segs, segOk s) :
    ∀ s ∈ bridge_outliers segs bt maxDriftMs, segOk s := by
  simp only [bridge_outliers]
  split
  · exact hsegs
  · split
    · exact hsegs
    · exact bridgeAux_segOk _ _ _ _ hsegs _ _ _ (by intro s hs; simp at hs)

theorem consolidate_segOk (segs : List Segment) (bt : List ℚ)
    (hsegs : ∀ s ∈ segs, segOk s) :
    ∀ s ∈ consolidate_constant_tempo segs bt, segOk s := by
  simp only [consolidate_constant_tempo]
  split
  · exact hsegs
  · split
    · exact hsegs
    · split
      · exact hsegs
      · split
        · rename_i first last hfirst hlast
          split
          · exact hsegs
          · split
            · exact hsegs
            · intro s hs
              rcases List.mem_singleton.mp hs with rfl
              left; rfl
        · exact hsegs

theorem segment_tempo_segOk (bt : List ℚ) (maxDriftMs : ℚ) :
    ∀ s ∈ segment_tempo bt maxDriftMs, segOk s := by
  simp only [segment_tempo]
  split
  · split
    · intro s hs
      rcases List.mem_singleton.mp hs with rfl
      right; exact ⟨rfl, rfl⟩
    · intro s hs; simp at hs
  · exact consolidate_segOk _ _ (bridge_outliers_segOk _ _ _ (build_segments_segOk _ _))

/-! ## Helper lemmas about the MP3 delay parse -/

theorem parseLame_default_or_inrange (data : List ℕ) (pos : ℕ) :
    parseLame data pos = 576 ∨ (0 < parseLame data pos ∧ parseLame data pos < 5000) := by
  simp only [parseLame]
  split
  · exact Or.inl rfl
  · split
    · exact Or.inl rfl
    · split
      · rename_i h
        exact Or.inr h
      · exact Or.inl rfl

theorem parseXing_default_or_inrange (data : List ℕ) (xo : ℕ) :
    parseXing data xo = 576 ∨ (0 < parseXing data xo ∧ parseXing data xo < 5000) := by
  simp only [parseXing]
  split
  · exact Or.inl rfl
  · split
    · exact Or.inl rfl
    · exact parseLame_default_or_inrange _ _

theorem parseFrame_default_or_inrange (data : List ℕ) (fs : ℕ) :
    parseFrame data fs = 576 ∨ (0 < parseFrame data fs ∧ parseFrame data fs < 5000) := by
  simp only [parseFrame]
  split
  · exact Or.inl rfl
  · exact parseXing_default_or_inrange _ _

theorem parseMp3Delay_default_or_inrange (f : List ℕ) :
    parseMp3Delay f = 576 ∨ (0 < parseMp3Delay f ∧ parseMp3Delay f < 5000) := by
  simp only [parseMp3Delay]
  split
  · exact Or.inl rfl
  · split
    · exact Or.inl rfl
    · exact parseFrame_default_or_inrange _ _

/-! ## Helper lemma about the snap acceptance test -/

theorem snapAcceptedB_iff (beats : List ℚ) :
    snapAcceptedB beats = true ↔
      ((snapCleanBeats beats).length * (80/100 : ℚ) ≤ ((snapFinal beats).2.2.count true : ℚ) ∧
        0 < (snapFinal beats).1) := by
  simp [snapAcceptedB]

/-! ## Claims -/

/-- C1 (counterexample): on the beat sequence `[0, 1, 2, 3, 3.02, 4, 5]`
the false-detection removal pass does not return `[0, 1, 2, 3, 4, 5]`:
the scan reaches the beat at 3.0 first, whose following interval (0.02 s)
is out of tolerance while the combined interval 2→3.02 is within
tolerance, so the pass deletes the beat at 3.0, not the one at 3.02. -/
theorem C1_counterexample :
    remove_false_detections [0, 1, 2, 3, 151/50, 4, 5] ≠ [0, 1, 2, 3, 4, 5] := by
  with_unfolding_all decide

/-- C1 (amended): on `[0, 1, 2, 3, 3.02, 4, 5]` the false-detection
removal pass removes exactly one beat of the close pair — the first one,
at 3.0 — and keeps every other beat, returning `[0, 1, 2, 3.02, 4, 5]`. -/
theorem C1_removes_first_of_pair :
    remove_false_detections [0, 1, 2, 3, 151/50, 4, 5] = [0, 1, 2, 151/50, 4, 5] := by
  with_unfolding_all decide

/-- C7 (counterexample): false-detection removal is not idempotent.  On
the strictly increasing sequence `[0, 0.3, 1.5, 3.5, 5.5, 5.8, 7.1]` the
first pass removes only the beat at 0.3 (median interval 1.25); the
median interval of the output is 1.5, under which the second pass also
removes the beat at 5.8. -/
theorem C7_counterexample :
    remove_false_detections
        (remove_false_detections [0, 3/10, 3/2, 7/2, 11/2, 29/5, 71/10]) ≠
      remove_false_detections [0, 3/10, 3/2, 7/2, 11/2, 29/5, 71/10] := by
  with_unfolding_all decide

/-- C7 (amended): applying the removal pass a second time yields a
(possibly strictly shorter) subsequence of the first pass's output: a
pass only ever deletes beats, so a second pass returns a sublist of the
first pass's result, but it need not return it unchanged. -/
theorem C7_second_pass_sublist (beats : List ℚ) :
    List.Sublist (remove_false_detections (remove_false_detections beats))
      (remove_false_detections beats) :=
  remove_false_detections_sublist _

/-- C2 (counterexample): `segment_tempo` can return more than 32
segments.  On `c2Beats` (35 beats with alternating intervals 0.5 s and
0.545 s) it returns 34 one-interval segments: no marker-count cap is
enforced and no tolerance relaxation or resegmentation ever happens. -/
theorem C2_counterexample : ¬ (segment_tempo c2Beats 20).length ≤ 32 := by
  with_unfolding_all decide

/-- C2 (amended): `segment_tempo` performs exactly one segmentation pass
— build, bridge, consolidate — at the supplied drift tolerance; it
enforces no 32-marker cap and never relaxes the tolerance or retries, so
its result can exceed 32 segments. -/
theorem C2_single_pass_no_cap :
    (∀ (bt : List ℚ) (tol : ℚ), 2 ≤ bt.length →
      segment_tempo bt tol =
        consolidate_constant_tempo (bridge_outliers (build_segments bt tol) bt tol) bt) ∧
    (∃ bt : List ℚ, 32 < (segment_tempo bt 20).length) := by
  constructor
  · intro bt tol h
    simp only [segment_tempo]
    rw [if_neg (by omega)]
  · exact ⟨c2Beats, by with_unfolding_all decide⟩

/-- C2 (witness): the amended theorem applied to the concrete 35-beat
sequence `c2Beats`. -/
theorem C2_witness :
    2 ≤ c2Beats.length ∧
      segment_tempo c2Beats 20 =
        consolidate_constant_tempo
          (bridge_outliers (build_segments c2Beats 20) c2Beats 20) c2Beats :=
  ⟨by with_unfolding_all decide,
   C2_single_pass_no_cap.1 c2Beats 20 (by with_unfolding_all decide)⟩

/-- C3 (counterexample): on the length-1 input the segmenter's
placeholder segment has `beat_count = 1` but
`end_beat_index - start_beat_index = 0`, so the claimed equation fails
for it. -/
theorem C3_counterexample :
    ∃ s ∈ segment_tempo [(0 : ℚ)] 20,
      s.beat_count ≠ s.end_beat_index - s.start_beat_index := by
  with_unfolding_all decide

/-- C3 (amended): every segment returned by `segment_tempo`, for every
input and tolerance, satisfies `beat_count = end_beat_index -
start_beat_index`, except the single-beat placeholder segments (the
length-1 input's placeholder and a trailing standalone beat), which have
`beat_count = 1` with `end_beat_index = start_beat_index`. -/
theorem C3_count_matches_range :
    ∀ (bt : List ℚ) (tol : ℚ), ∀ s ∈ segment_tempo bt tol,
      s.beat_count = s.end_beat_index - s.start_beat_index ∨
        (s.beat_count = 1 ∧ s.end_beat_index = s.start_beat_index) :=
  fun bt tol => segment_tempo_segOk bt tol

/-- C3 (witness): the amended theorem applied to the segment produced
for the concrete input `[0, 1, 2]`. -/
theorem C3_witness :
    ({ start_beat_index := 0, end_beat_index := 2, start_position := 0, bpm := 60,
       beat_count := 2 } : Segment).beat_count =
        ({ start_beat_index := 0, end_beat_index := 2, start_position := 0, bpm := 60,
           beat_count := 2 } : Segment).end_beat_index -
        ({ start_beat_index := 0, end_beat_index := 2, start_position := 0, bpm := 60,
           beat_count := 2 } : Segment).start_beat_index ∨
      (({ start_beat_index := 0, end_beat_index := 2, start_position := 0, bpm := 60,
          beat_count := 2 } : Segment).beat_count = 1 ∧
        ({ start_beat_index := 0, end_beat_index := 2, start_position := 0, bpm := 60,
           beat_count := 2 } : Segment).end_beat_index =
          ({ start_beat_index := 0, end_beat_index := 2, start_position := 0, bpm := 60,
             beat_count := 2 } : Segment).start_beat_index) :=
  C3_count_matches_range [0, 1, 2] 20 _ (by with_unfolding_all decide)

set_option maxHeartbeats 1000000 in
/-- C4: the empirical calibration offset is adopted exactly when at
least 10 signed deltas were collected and their median lies in the
closed window [-0.010 s, 0.060 s]; a 45 ms median over 10 deltas is
accepted and added to every beat, while a 65 ms median over 10 deltas is
rejected, the computed codec-delay-plus-onset-to-peak offset being added
to every beat instead. -/
theorem C4_calibration_window :
    (∀ offs : List ℚ,
      calibrationDecision offs =
        if 10 ≤ offs.length ∧ -(10/1000 : ℚ) ≤ npMedian offs ∧ npMedian offs ≤ 60/1000
        then some (npMedian offs) else none) ∧
    calibrationDecision (List.replicate 10 (45/1000)) = some (45/1000) ∧
    (∀ (beats : List ℚ) (comp : ℚ),
      applyCalibration beats (List.replicate 10 (45/1000)) comp =
        beats.map (fun b => b + 45/1000)) ∧
    calibrationDecision (List.replicate 10 (65/1000)) = none ∧
    (∀ (beats : List ℚ) (comp : ℚ),
      applyCalibration beats (List.replicate 10 (65/1000)) comp =
        beats.map (fun b => b + comp)) := by
  have h45 : calibrationDecision (List.replicate 10 ((45 : ℚ)/1000)) = some (45/1000) := by
    with_unfolding_all decide
  have h65 : calibrationDecision (List.replicate 10 ((65 : ℚ)/1000)) = none := by
    with_unfolding_all decide
  refine ⟨?_, h45, ?_, h65, ?_⟩
  · intro offs
    simp only [calibrationDecision]
    split_ifs <;> first | rfl | tauto
  · intro beats comp
    simp only [applyCalibration, h45]
  · intro beats comp
    simp only [applyCalibration, h65]

/-- C5: `get_mp3_encoder_delay` is total (the embedding is a function,
never an exception): every path not ending in `.mp3` case-insensitively
yields 0; the crafted MP3 buffer whose Xing/LAME header encodes delay
1234 yields 1234; an unreadable file, a buffer with no Xing/Info tag, a
non-printable version string, and an out-of-range delay all yield the
fixed default 576; and for an `.mp3` path the parse always returns
either 576 or an in-range delay `0 < d < 5000`. -/
theorem C5_encoder_delay :
    (∀ (filepath : String) (file : Option (List ℕ)),
      filepath.toLower.endsWith ".mp3" = false →
        get_mp3_encoder_delay filepath file = 0) ∧
    get_mp3_encoder_delay "track.mp3" (some xingDelayBytes) = 1234 ∧
    get_mp3_encoder_delay "track.mp3" none = 576 ∧
    get_mp3_encoder_delay "track.mp3" (some noXingBytes) = 576 ∧
    get_mp3_encoder_delay "track.mp3" (some xingBadVersionBytes) = 576 ∧
    get_mp3_encoder_delay "track.mp3" (some xingZeroDelayBytes) = 576 ∧
    (∀ file : List ℕ,
      parseMp3Delay file = 576 ∨
        (0 < parseMp3Delay file ∧ parseMp3Delay file < 5000)) := by
  refine ⟨?_, ?_, ?_, ?_, ?_, ?_, parseMp3Delay_default_or_inrange⟩
  · intro p f h
    simp [get_mp3_encoder_delay, h]
  · with_unfolding_all decide
  · with_unfolding_all decide
  · with_unfolding_all decide
  · with_unfolding_all decide
  · with_unfolding_all decide

/-- C5 (witness): the non-`.mp3` conjunct of `C5_encoder_delay`
instantiated at the concrete path `song.flac`. -/
theorem C5_witness :
    "song.flac".toLower.endsWith ".mp3" = false ∧
      get_mp3_encoder_delay "song.flac" (some xingDelayBytes) = 0 :=
  ⟨by with_unfolding_all decide,
   C5_encoder_delay.1 "song.flac" (some xingDelayBytes) (by with_unfolding_all decide)⟩

/-- C6: for the markers `[{position: 10, beats_until_next: 4},
{position: 12, bpm: 120}]`, reconstruction yields the interior beats
10, 10.5, 11, 11.5 and the endpoint 12 (`pos + k*(next-pos)/4` for
`k = 0..3`, both endpoints included), then continues past 12 at 0.5 s
(= 60/120) spacing strictly until the caller-supplied duration bound
(here 14 s) or, with no duration, until the beat-count cap (here 7). -/
theorem C6_reconstruction :
    reconstruct_serato_beats
        [{ position := 10, kind := .toNext 4 }, { position := 12, kind := .tempo 120 }]
        500 (some 14) = [10, 21/2, 11, 23/2, 12, 25/2, 13, 27/2] ∧
    reconstruct_serato_beats
        [{ position := 10, kind := .toNext 4 }, { position := 12, kind := .tempo 120 }]
        7 none = [10, 21/2, 11, 23/2, 12, 25/2, 13] := by
  constructor <;> with_unfolding_all decide

/-- C8: the grid-snapping stage leaves the beat sequence exactly
unchanged when the sequence has fewer than 8 beats, when the
interquartile spread of the intervals is not below 3% of the median
interval, or when the acceptance condition fails (fewer than 80% of the
deduplicated beats are inliers of the final fit, or the final slope is
nonpositive); when the stage is active and the fit is accepted, the
sequence is replaced by the exact arithmetic progression
`intercept + n*slope` over the inlier beat-number range, with negative
positions dropped. -/
theorem C8_grid_snap_frame :
    (∀ beats : List ℚ, beats.length < 8 → grid_snap beats = beats) ∧
    (∀ beats : List ℚ, ¬ iqrSpread beats < 3/100 → grid_snap beats = beats) ∧
    (∀ beats : List ℚ,
      ¬ ((snapCleanBeats beats).length * (80/100 : ℚ) ≤
            ((snapFinal beats).2.2.count true : ℚ) ∧
          0 < (snapFinal beats).1) →
      grid_snap beats = beats) ∧
    (∀ beats : List ℚ, 8 ≤ beats.length → iqrSpread beats < 3/100 →
      (snapCleanBeats beats).length * (80/100 : ℚ) ≤
        ((snapFinal beats).2.2.count true : ℚ) →
      0 < (snapFinal beats).1 →
      grid_snap beats =
        ((List.range
            ((maskFilter (snapCleanNumbers beats) (snapFinal beats).2.2).getLastD 0 -
              (maskFilter (snapCleanNumbers beats) (snapFinal beats).2.2).headD 0 + 1).toNat).map
          (fun j => (snapFinal beats).2.1 +
            (((maskFilter (snapCleanNumbers beats) (snapFinal beats).2.2).headD 0 +
              (j : ℤ) : ℤ) : ℚ) * (snapFinal beats).1)).filter
          (fun g => decide (0 ≤ g))) := by
  refine ⟨?_, ?_, ?_, ?_⟩
  · intro beats h
    simp only [grid_snap, if_neg (show ¬ 8 ≤ beats.length by omega)]
  · intro beats h
    simp only [grid_snap, if_neg h, ite_self]
  · intro beats h
    have hacc : ¬ snapAcceptedB beats = true :=
      fun hc => h ((snapAcceptedB_iff beats).mp hc)
    simp only [grid_snap, if_neg hacc, ite_self]
  · intro beats h1 h2 h3 h4
    simp only [grid_snap, if_pos h1, if_pos h2,
      if_pos ((snapAcceptedB_iff beats).mpr ⟨h3, h4⟩)]
    rfl

/-- C8 (witness): the four cases of `C8_grid_snap_frame` on concrete
inputs — a 4-beat sequence (inactive), an 8-beat sequence with a large
interval spread (inactive), the 21-beat `c8Rejected` sequence (active
but rejected, unchanged), and the perfectly even `[0..7]` (accepted,
regenerated as the same arithmetic progression). -/
theorem C8_witness :
    grid_snap [0, 1, 2, 3] = [0, 1, 2, 3] ∧
    grid_snap [0, 1, 11/5, 3, 22/5, 5, 33/5, 7] = [0, 1, 11/5, 3, 22/5, 5, 33/5, 7] ∧
    grid_snap c8Rejected = c8Rejected ∧
    grid_snap [0, 1, 2, 3, 4, 5, 6, 7] = [0, 1, 2, 3, 4, 5, 6, 7] := by
  refine ⟨C8_grid_snap_frame.1 [0, 1, 2, 3] (by with_unfolding_all decide),
    C8_grid_snap_frame.2.1 [0, 1, 11/5, 3, 22/5, 5, 33/5, 7] (by with_unfolding_all decide),
    C8_grid_snap_frame.2.2.1 c8Rejected (by with_unfolding_all decide), ?_⟩
  have h := C8_grid_snap_frame.2.2.2 [0, 1, 2, 3, 4, 5, 6, 7]
    (by with_unfolding_all decide) (by with_unfolding_all decide)
    (by with_unfolding_all decide) (by with_unfolding_all decide)
  rw [h]
  with_unfolding_all decide

/-- C9: for every strictly increasing input, every signal and every
sample rate, the output of the cleaning stages (weak-leading trim,
leading extrapolation, false-detection removal) is strictly increasing:
trimming and removal select subsequences, and extrapolation only
prepends positions strictly below the current first beat. -/
theorem C9_cleaning_strictly_increasing (rmsAt : ℚ → ℚ) (sigLen : ℕ) (sr : ℚ)
    (beats : List ℚ) (h : beats.Pairwise (· < ·)) :
    (clean_beats rmsAt sigLen sr beats).Pairwise (· < ·) :=
  ((extrapolateLeading_pairwise rmsAt sigLen sr _
      (h.sublist (trimWeakBeats_sublist rmsAt beats))).sublist
    (remove_false_detections_sublist _))

/-- C9 (witness): `C9_cleaning_strictly_increasing` on the concrete
strictly increasing input `[0, 1, 2, 3, 4]` with a constant unit energy
probe. -/
theorem C9_witness :
    (clean_beats (fun _ => 1) 0 1 [0, 1, 2, 3, 4]).Pairwise (· < ·) :=
  C9_cleaning_strictly_increasing (fun _ => 1) 0 1 [0, 1, 2, 3, 4]
    (by with_unfolding_all decide)

/-- C10: `reconstruct_serato_beats` is total on degenerate markers: the
empty marker list yields no beats; a non-terminal marker whose
`beats_until_next` is 0 contributes only its own position (no interior
loop, no division); a terminal marker with nonpositive bpm contributes
only its own position (no extrapolation); concretely, the degenerate
pair `[{position: 5, beats_until_next: 0}, {position: 7, bpm: 0}]`
reconstructs to `[5, 7]` and `[{position: 3, bpm: -120}]` to `[3]`. -/
theorem C10_degenerate_markers :
    (∀ (maxBeats : ℕ) (duration : Option ℚ),
      reconstruct_serato_beats [] maxBeats duration = []) ∧
    (∀ (p : ℚ) (m2 : Marker) (rest : List Marker) (maxBeats : ℕ)
        (duration : Option ℚ) (beats : List ℚ),
      reconAux maxBeats duration ({ position := p, kind := .toNext 0 } :: m2 :: rest) beats =
        reconAux maxBeats duration (m2 :: rest) (beats ++ [p])) ∧
    (∀ (p bpm : ℚ), bpm ≤ 0 → ∀ (maxBeats : ℕ) (duration : Option ℚ) (beats : List ℚ),
      reconAux maxBeats duration [{ position := p, kind := .tempo bpm }] beats =
        beats ++ [p]) ∧
    reconstruct_serato_beats [⟨5, .toNext 0⟩, ⟨7, .tempo 0⟩] 500 (some 20) = [5, 7] ∧
    reconstruct_serato_beats [⟨3, .tempo (-120)⟩] 500 (some 20) = [3] := by
  refine ⟨?_, ?_, ?_, ?_, ?_⟩
  · intro maxBeats duration
    simp [reconstruct_serato_beats]
  · intro p m2 rest maxBeats duration beats
    simp only [reconAux, markerBUN]
    rw [if_neg (by omega)]
  · intro p bpm hb maxBeats duration beats
    simp only [reconAux, markerBpm]
    rw [if_neg (not_lt.mpr hb)]
  · with_unfolding_all decide
  · with_unfolding_all decide

/-- C10 (witness): the nonpositive-bpm conjunct of
`C10_degenerate_markers` instantiated at bpm = -120. -/
theorem C10_witness :
    (-120 : ℚ) ≤ 0 ∧
      reconAux 500 (some 20) [{ position := 3, kind := .tempo (-120) }] [] = [(3 : ℚ)] :=
  ⟨by norm_num,
   C10_degenerate_markers.2.2.1 3 (-120) (by norm_num) 500 (some 20) []⟩
